import Mathlib

/-!
Verification of the Toguz Kumalak UI state/history core (`main.py`).

We shallowly embed the board model (`ToguzBoard`), the move-history ledger
(`MoveHistory`), the pointer-to-pit hit-testing geometry
(`GameUI._screen_to_pit`), and the click-handling pipeline of `GameUI`.

Conventions of the embedding:
* Python `list` indexing (which accepts negative indices and raises
  `IndexError` out of range) is modelled by `pyIdx` / `pyGet` / `pySet`;
  a raised exception is modelled as `none`.
* Pit and kazan counts are naturals (the program only ever stores
  naturals in them: the initial 9s and 0).
* `copy.deepcopy` is the identity on values, so `ToguzBoard.copy` is
  dropped: every operation is a pure function on immutable values.
* Screen geometry is modelled over `ℚ` (exact arithmetic in place of
  Python floats).
-/

namespace Toguz

/-- Python list index resolution for a list of length `n`: a non-negative
index `i` is valid iff `i < n`; a negative index counts from the end and
is valid iff `0 ≤ i + n`.  `none` models a raised `IndexError`. -/
def pyIdx (n : ℕ) (i : ℤ) : Option ℕ :=
  if 0 ≤ i then
    if i < (n : ℤ) then some i.toNat else none
  else
    if 0 ≤ i + (n : ℤ) then some (i + (n : ℤ)).toNat else none

/-- Python `l[i]` (read). -/
def pyGet {α : Type} (l : List α) (i : ℤ) : Option α :=
  match pyIdx l.length i with
  | some k => l.get? k
  | none => none

/-- Python `l[i] = v` (write), returning the updated list. -/
def pySet {α : Type} (l : List α) (i : ℤ) (v : α) : Option (List α) :=
  match pyIdx l.length i with
  | some k => some (l.set k v)
  | none => none

/-- `ToguzBoard` dataclass: 18 pit counts, the two kazans (stores), and
the side to move (`0` = bottom, `1` = top). -/
structure ToguzBoard where
  pits : List ℕ
  kazans : ℕ × ℕ
  turn : ℕ
  deriving DecidableEq, Repr

/-- `ToguzBoard()` with the dataclass defaults: `[9] * 18`, `(0, 0)`, `0`. -/
def initBoard : ToguzBoard :=
  { pits := List.replicate 18 9, kazans := (0, 0), turn := 0 }

/-- `ToguzBoard.generate_legal_moves`: pit indices of the side to move
holding a positive count (`range(9)` for side 0, `range(9, 18)` for
side 1). -/
def ToguzBoard.generate_legal_moves (b : ToguzBoard) : List ℕ :=
  if b.turn = 0 then
    (List.range 9).filter fun i => decide (0 < b.pits.getD i 0)
  else
    (List.range' 9 9).filter fun i => decide (0 < b.pits.getD i 0)

/-- `ToguzBoard.apply_move`: deep-copies the board, flips `turn` with
`turn ^= 1`, and zeroes `pits[pit_index]` (placeholder mechanics; no
sowing, no capture).  `none` models the `IndexError` Python raises when
`pit_index` is unusable; the original board is never mutated. -/
def ToguzBoard.apply_move (b : ToguzBoard) (pit_index : ℤ) : Option ToguzBoard :=
  match pySet b.pits pit_index 0 with
  | some ps => some { pits := ps, kazans := b.kazans, turn := b.turn ^^^ 1 }
  | none => none

/-- Total seed count `sum(pits) + stores[0] + stores[1]` of the
seed-conservation invariant. -/
def totalSeeds (b : ToguzBoard) : ℕ :=
  b.pits.sum + b.kazans.1 + b.kazans.2

/-- `MoveRecord` dataclass.  (The source field `notation` is renamed
`label` here.) -/
structure MoveRecord where
  ply : ℕ
  label : String
  board_snapshot : ToguzBoard
  deriving DecidableEq, Repr

/-- `MoveHistory` is its `_records` list; `MoveHistory.add` appends a
record with `ply = len(_records) + 1` and a copy of the snapshot. -/
def MoveHistory.add (recs : List MoveRecord) (label : String)
    (board_snapshot : ToguzBoard) : List MoveRecord :=
  recs ++ [{ ply := recs.length + 1, label := label,
             board_snapshot := board_snapshot }]

/-- `MoveHistory.rewind_to`: the board before the given 1-based ply —
`ToguzBoard()` for ply 0, else `_records[ply - 1].board_snapshot.copy()`
with raw Python indexing (no bounds check of its own). -/
def MoveHistory.rewind_to (recs : List MoveRecord) (ply : ℤ) : Option ToguzBoard :=
  if ply = 0 then some initBoard
  else
    match pyGet recs (ply - 1) with
    | some r => some r.board_snapshot
    | none => none

/-- `MoveHistory.as_table`: the `(ply, label)` projection. -/
def MoveHistory.as_table (recs : List MoveRecord) : List (ℕ × String) :=
  recs.map fun r => (r.ply, r.label)

/-- Histories the program can actually build: starting from the empty
ledger, `MoveHistory.add` appends and the `run` loop truncates with
`self.history._records = self.history._records[:row_idx]` (a prefix). -/
inductive ReachableHist : List MoveRecord → Prop
  | init : ReachableHist []
  | add (recs : List MoveRecord) (label : String) (b : ToguzBoard) :
      ReachableHist recs → ReachableHist (MoveHistory.add recs label b)
  | truncate (recs : List MoveRecord) (k : ℕ) :
      ReachableHist recs → ReachableHist (recs.take k)

/-- The mutable state of `GameUI` that the event loop touches:
`self.board_model` and `self.history._records`. -/
structure GameState where
  board : ToguzBoard
  hist : List MoveRecord
  deriving DecidableEq, Repr

/-- The notation string `f"{'AI' if by_engine else 'P'}:{pit_index + 1}"`. -/
def moveTag (by_engine : Bool) (pit : ℕ) : String :=
  (if by_engine then "AI" else "P") ++ ":" ++ toString (pit + 1)

/-- The shared body of `GameUI._apply_move` without the engine reply:
`self.board_model = self.board_model.apply_move(pit_index)` followed by
`self._push_history(move_str)` (which records the *new* board). -/
def applyMoveCore (st : GameState) (pit : ℕ) (by_engine : Bool) : Option GameState :=
  (st.board.apply_move (pit : ℤ)).map fun b =>
    { board := b, hist := MoveHistory.add st.hist (moveTag by_engine pit) b }

/-- `GameUI._engine_move`: if no legal move exists only a popup is shown
(state untouched); otherwise the first legal move is applied with the
engine tag. -/
def engineReply (st : GameState) : Option GameState :=
  match st.board.generate_legal_moves with
  | [] => some st
  | m :: _ => applyMoveCore st m true

/-- The `-BOARD-` branch of `GameUI.run`: the hit-tested pit is applied
(human move, which then triggers the engine reply) only when it is not
`None` and is in `generate_legal_moves`; otherwise nothing happens. -/
def handleBoardClick (st : GameState) (optPit : Option ℕ) : Option GameState :=
  match optPit with
  | some p =>
      if p ∈ st.board.generate_legal_moves then
        (applyMoveCore st p false).bind engineReply
      else some st
  | none => some st

/-- `pyIdx` yields `none` exactly off both ends of the list. -/
theorem pyIdx_eq_none_iff (n : ℕ) (i : ℤ) :
    pyIdx n i = none ↔ ((n : ℤ) ≤ i ∨ i + (n : ℤ) < 0) := by
  unfold pyIdx
  split_ifs <;> simp <;> omega

/-- A resolved Python index is a valid position. -/
theorem pyIdx_lt {n : ℕ} {i : ℤ} {k : ℕ} (h : pyIdx n i = some k) : k < n := by
  unfold pyIdx at h
  split_ifs at h <;> simp at h <;> omega

/-- Python reads fail exactly off both ends of the list. -/
theorem pyGet_eq_none_iff {α : Type} (l : List α) (i : ℤ) :
    pyGet l i = none ↔ ((l.length : ℤ) ≤ i ∨ i + (l.length : ℤ) < 0) := by
  unfold pyGet
  rcases hp : pyIdx l.length i with _ | k
  · rw [pyIdx_eq_none_iff] at hp
    simp [hp]
  · have hk := pyIdx_lt hp
    have hns : ¬(pyIdx l.length i = none) := by simp [hp]
    rw [pyIdx_eq_none_iff] at hns
    simp only [List.get?_eq_getElem?, List.getElem?_eq_getElem hk]
    simp [hns]

/-- Claim C1: the code's `apply_move` does NOT conserve
`sum(pits) + stores[0] + stores[1]`: on the initial board (total 162),
playing pit 0 zeroes its 9 seeds without crediting anything, leaving
total 153.  (The function carries a `TODO: implement sowing & capture
rules`; the conservation stated by the spec is the documented intent,
the placeholder a stand-in.) -/
theorem c1_apply_move_loses_seeds :
    totalSeeds initBoard = 162 ∧
      (initBoard.apply_move 0).map totalSeeds = some 153 := by
  constructor <;> rfl

/-- Claim C9: on the canonical initial board (side 0 to move),
`generate_legal_moves` filters `range(9)` by positive pit count and,
since every pit starts at 9, returns exactly `[0, 1, ..., 8]`. -/
theorem c9_initial_legal_moves :
    initBoard.generate_legal_moves
        = (List.range 9).filter (fun i => decide (0 < initBoard.pits.getD i 0)) ∧
      initBoard.generate_legal_moves = [0, 1, 2, 3, 4, 5, 6, 7, 8] := by
  constructor <;> rfl

/-- Claim C2, counterexample: `apply_move` itself performs no legality
check whatsoever — no `IllegalMoveError` exists in the program.  On a
board whose pit 0 is empty (so `0` is not a legal move), `apply_move(0)`
succeeds and returns a board rather than failing. -/
theorem c2_counterexample :
    (0 ∉ (ToguzBoard.mk (0 :: List.replicate 17 9) (0, 0) 0).generate_legal_moves) ∧
      (ToguzBoard.mk (0 :: List.replicate 17 9) (0, 0) 0).apply_move 0
        = some (ToguzBoard.mk (0 :: List.replicate 17 9) (0, 0) 1) := by
  constructor
  · decide
  · rfl

/-- Claim C2 (amended): illegal moves are rejected by the `run` loop's
guard, not by `apply_move`: a click resolving to no pit, or to a pit not
in `generate_legal_moves`, leaves the board and the history exactly
unchanged (no state change, no history append). -/
theorem c2_amended_reject (st : GameState) (p : ℕ)
    (hp : p ∉ st.board.generate_legal_moves) :
    handleBoardClick st (some p) = some st ∧
      handleBoardClick st none = some st := by
  constructor
  · simp [handleBoardClick, hp]
  · rfl

/-- Witness for C2's amended theorem: on the fresh game state, pit 17 is
not a bottom-side legal move, and the click is a no-op. -/
theorem c2_amended_reject_witness :
    handleBoardClick ⟨initBoard, []⟩ (some 17) = some ⟨initBoard, []⟩ ∧
      handleBoardClick ⟨initBoard, []⟩ none = some ⟨initBoard, []⟩ :=
  c2_amended_reject ⟨initBoard, []⟩ 17 (by decide)

/-- Claim C3: for EVERY history (any length, the empty one included),
`rewind_to 0` is the canonical fresh board; and for `1 ≤ ply ≤ length`,
`rewind_to ply` is `_records[ply - 1].board_snapshot`. -/
theorem c3_rewind (recs : List MoveRecord) :
    MoveHistory.rewind_to recs 0 = some initBoard ∧
      ∀ (ply : ℕ), 1 ≤ ply → ply ≤ recs.length →
        ∃ r, recs[ply - 1]? = some r ∧
          MoveHistory.rewind_to recs (ply : ℤ) = some r.board_snapshot := by
  refine ⟨rfl, ?_⟩
  intro ply h1 h2
  have hlt : ply - 1 < recs.length := by omega
  refine ⟨recs.get ⟨ply - 1, hlt⟩, by simp, ?_⟩
  have hne : ¬((ply : ℤ) = 0) := by omega
  have h0 : (0 : ℤ) ≤ (ply : ℤ) - 1 := by omega
  have hl : (ply : ℤ) - 1 < (recs.length : ℤ) := by omega
  have htn : ((ply : ℤ) - 1).toNat = ply - 1 := by omega
  unfold MoveHistory.rewind_to pyGet pyIdx
  rw [if_neg hne, if_pos h0, if_pos hl, htn]
  simp [List.get?_eq_getElem?, List.getElem?_eq_getElem hlt]

/-- Witness for C3: the empty history for the first conjunct, and a
one-entry history at ply 1 for the second. -/
theorem c3_rewind_witness :
    MoveHistory.rewind_to [] 0 = some initBoard ∧
      ∃ r, ([(⟨1, "P:1", initBoard⟩ : MoveRecord)][(1 : ℕ) - 1]?) = some r ∧
        MoveHistory.rewind_to [⟨1, "P:1", initBoard⟩] ((1 : ℕ) : ℤ)
          = some r.board_snapshot :=
  ⟨(c3_rewind []).1,
   (c3_rewind [⟨1, "P:1", initBoard⟩]).2 1 (by decide) (by decide)⟩

/-- Claim C4, counterexample: a negative ply does NOT fail — Python's
negative indexing silently wraps.  On a two-entry history, `rewind_to(-1)`
reads `_records[-2]`, i.e. the FIRST entry's snapshot, instead of raising
anything (`OutOfRangeError` does not exist in the program). -/
theorem c4_counterexample :
    MoveHistory.rewind_to
        [⟨1, "P:1", ToguzBoard.mk (List.replicate 18 1) (0, 0) 1⟩,
         ⟨2, "AI:1", ToguzBoard.mk (List.replicate 18 2) (0, 0) 0⟩]
        (-1)
      = some (ToguzBoard.mk (List.replicate 18 1) (0, 0) 1) := by
  rfl

/-- Claim C4 (amended): `rewind_to` has no bounds check of its own; with
Python list semantics it raises `IndexError` (not `OutOfRangeError`,
which does not exist) exactly when `ply > length` or `ply < 1 - length`
with `ply ≠ 0`; a negative ply with `1 - length ≤ ply` wraps around and
returns an entry instead of failing.  The call never mutates the
history, so the ledger is unchanged in every case. -/
theorem c4_amended_no_bounds_check (recs : List MoveRecord) (ply : ℤ) :
    MoveHistory.rewind_to recs ply = none ↔
      ply ≠ 0 ∧ ((recs.length : ℤ) < ply ∨ ply < 1 - (recs.length : ℤ)) := by
  unfold MoveHistory.rewind_to
  by_cases h0 : ply = 0
  · subst h0
    simp
  · rw [if_neg h0]
    rcases hg : pyGet recs (ply - 1) with _ | r
    · rw [pyGet_eq_none_iff] at hg
      simp only [h0, ne_eq, not_false_eq_true, true_and]
      constructor
      · intro _
        omega
      · intro _
        trivial
    · have hns : ¬(pyGet recs (ply - 1) = none) := by simp [hg]
      rw [pyGet_eq_none_iff] at hns
      simp only [h0, ne_eq, not_false_eq_true, true_and]
      constructor
      · intro h
        simp at h
      · intro h
        exact absurd h (by omega)

/-- In every reachable history, entry `i` carries ply `i + 1`:
`add` stamps `len + 1` onto the appended record and truncation keeps a
prefix, so density is preserved. -/
theorem reachable_ply_eq (recs : List MoveRecord) (hr : ReachableHist recs) :
    ∀ i (hi : i < recs.length), (recs.get ⟨i, hi⟩).ply = i + 1 := by
  induction hr with
  | init =>
      intro i hi
      simp at hi
  | add recs label b _ ih =>
      intro i hi
      simp only [MoveHistory.add, List.get_eq_getElem]
      rcases Nat.lt_or_ge i recs.length with h | h
      · rw [List.getElem_append_left h]
        simpa using ih i h
      · have heq : i = recs.length := by
          simp only [MoveHistory.add, List.length_append, List.length_cons,
            List.length_nil] at hi
          omega
        subst heq
        simp [MoveHistory.add]
  | truncate recs k _ ih =>
      intro i hi
      have hlen : i < recs.length := by
        have h := hi
        simp only [List.length_take] at h
        omega
      simp only [List.get_eq_getElem, List.getElem_take]
      simpa using ih i hlen

/-- Claim C5: ply numbers are dense and 1-based in every history built
by `add` and prefix truncation; and truncating a 5-entry history to 2
entries makes the next appended entry carry ply 3 (not 6). -/
theorem c5_ply_dense (recs : List MoveRecord) (hr : ReachableHist recs) :
    (∀ i (hi : i < recs.length), (recs.get ⟨i, hi⟩).ply = i + 1) ∧
      (∀ (label : String) (b : ToguzBoard), recs.length = 5 →
        (MoveHistory.add (recs.take 2) label b)[2]? = some ⟨3, label, b⟩) := by
  refine ⟨reachable_ply_eq recs hr, ?_⟩
  intro label b hlen
  have h2 : (recs.take 2).length = 2 := by
    simp [List.length_take, hlen]
  unfold MoveHistory.add
  rw [List.getElem?_append_right (by omega : (recs.take 2).length ≤ 2), h2]
  rfl

/-- A concrete five-move history built only with `MoveHistory.add`. -/
def demoHist : List MoveRecord :=
  MoveHistory.add
    (MoveHistory.add
      (MoveHistory.add
        (MoveHistory.add
          (MoveHistory.add [] "P:1" initBoard)
          "AI:1" initBoard)
        "P:2" initBoard)
      "AI:2" initBoard)
    "P:3" initBoard

/-- `demoHist` is reachable. -/
theorem demoHist_reachable : ReachableHist demoHist :=
  ReachableHist.add _ _ _
    (ReachableHist.add _ _ _
      (ReachableHist.add _ _ _
        (ReachableHist.add _ _ _
          (ReachableHist.add _ _ _ ReachableHist.init))))

/-- Witness for C5 on the concrete five-entry history. -/
theorem c5_ply_dense_witness :
    (MoveHistory.add (demoHist.take 2) "P:6" initBoard)[2]?
      = some ⟨3, "P:6", initBoard⟩ :=
  (c5_ply_dense demoHist demoHist_reachable).2 "P:6" initBoard (by rfl)

/-- Claim C8: `apply_move` is modelled as a pure function of the board
value and the move identifier — it deep-copies its receiver, reads
nothing else, and mutates nothing — so structurally equal inputs always
produce equal outputs. -/
theorem c8_apply_move_pure (s₁ s₂ : ToguzBoard) (m₁ m₂ : ℤ)
    (hs : s₁ = s₂) (hm : m₁ = m₂) :
    s₁.apply_move m₁ = s₂.apply_move m₂ := by
  rw [hs, hm]

/-- Witness for C8 at the initial board and move 0. -/
theorem c8_apply_move_pure_witness :
    initBoard.apply_move 0 = initBoard.apply_move 0 :=
  c8_apply_move_pure initBoard initBoard 0 0 rfl rfl

/-- Claim C10: for an in-range pit index, `apply_move` returns a board
with the turn xor-flipped, the clicked pit zeroed, and every other pit
and both kazans unchanged (the receiver itself is never mutated: the
embedding is a pure function, matching the source's deep copy). -/
theorem c10_apply_move_frame (s : ToguzBoard) (m : ℕ) (hm : m < 18)
    (hlen : s.pits.length = 18) :
    ∃ b, s.apply_move (m : ℤ) = some b ∧
      b.turn = s.turn ^^^ 1 ∧
      b.kazans = s.kazans ∧
      b.pits[m]? = some 0 ∧
      ∀ j : ℕ, j ≠ m → b.pits[j]? = s.pits[j]? := by
  have hm' : m < s.pits.length := by omega
  refine ⟨⟨s.pits.set m 0, s.kazans, s.turn ^^^ 1⟩, ?_, rfl, rfl, ?_, ?_⟩
  · unfold ToguzBoard.apply_move pySet pyIdx
    have h0 : (0 : ℤ) ≤ (m : ℤ) := by omega
    have h1 : (m : ℤ) < (s.pits.length : ℤ) := by omega
    rw [if_pos h0, if_pos h1]
    simp
  · simp [List.getElem?_set_self hm']
  · intro j hj
    simp [List.getElem?_set_ne (by omega : m ≠ j)]

/-- Witness for C10 at the initial board and pit 5. -/
theorem c10_apply_move_frame_witness :
    ∃ b, initBoard.apply_move ((5 : ℕ) : ℤ) = some b ∧
      b.turn = initBoard.turn ^^^ 1 ∧
      b.kazans = initBoard.kazans ∧
      b.pits[(5 : ℕ)]? = some 0 ∧
      ∀ j : ℕ, j ≠ 5 → b.pits[j]? = initBoard.pits[j]? :=
  c10_apply_move_frame initBoard 5 (by decide) (by decide)

/-- The radius heuristic `min(w / 18, h / 4) * 0.9` shared by
`_draw_board` and `_screen_to_pit` (modelled over `ℚ`). -/
def pitR (w h : ℚ) : ℚ := min (w / 18) (h / 4) * (9 / 10)

/-- Bottom-row cell centre x: `(i + 0.5) * 2 * pit_r`. -/
def bcx (r : ℚ) (i : ℕ) : ℚ := ((i : ℚ) + 1 / 2) * 2 * r

/-- Bottom-row cell centre y: `pit_r * 1.5`. -/
def bcy (r : ℚ) : ℚ := r * (3 / 2)

/-- Top-row cell centre x: `(8 - i + 0.5) * 2 * pit_r`. -/
def tcx (r : ℚ) (i : ℕ) : ℚ := ((8 : ℚ) - (i : ℚ) + 1 / 2) * 2 * r

/-- Top-row cell centre y: `h - pit_r * 1.5`. -/
def tcy (h r : ℚ) : ℚ := h - r * (3 / 2)

/-- The hit condition `(x - cx) ** 2 + (y - cy) ** 2 <= pit_r ** 2`. -/
def hitsB (x y cx cy r : ℚ) : Bool :=
  decide ((x - cx) ^ 2 + (y - cy) ^ 2 ≤ r ^ 2)

/-- `GameUI._screen_to_pit`: scan the bottom row `0..8`, then the top
row (as pit `9 + i`), returning the first cell whose disk contains the
point, else `none`. -/
def screen_to_pit (w h x y : ℚ) : Option ℕ :=
  match (List.range 9).find?
      (fun i => hitsB x y (bcx (pitR w h) i) (bcy (pitR w h)) (pitR w h)) with
  | some i => some i
  | none =>
    match (List.range 9).find?
        (fun i => hitsB x y (tcx (pitR w h) i) (tcy h (pitR w h)) (pitR w h)) with
    | some i => some (9 + i)
    | none => none

/-- The x coordinate of the geometric centre of cell `i` (0–17), per the
drawing formulas. -/
def cellCenterX (w h : ℚ) (i : ℕ) : ℚ :=
  if i < 9 then bcx (pitR w h) i else tcx (pitR w h) (i - 9)

/-- The y coordinate of the geometric centre of cell `i` (0–17). -/
def cellCenterY (w h : ℚ) (i : ℕ) : ℚ :=
  if i < 9 then bcy (pitR w h) else tcy h (pitR w h)

/-- The radius is positive on any positive viewport. -/
theorem pitR_pos {w h : ℚ} (hw : 0 < w) (hh : 0 < h) : 0 < pitR w h := by
  unfold pitR
  have h1 : 0 < w / 18 := by positivity
  have h2 : 0 < h / 4 := by positivity
  have h3 : 0 < min (w / 18) (h / 4) := lt_min h1 h2
  nlinarith

/-- The radius is at most `9 / 40` of the viewport height. -/
theorem pitR_le_height {w h : ℚ} : 40 * pitR w h ≤ 9 * h := by
  unfold pitR
  have h1 : min (w / 18) (h / 4) ≤ h / 4 := min_le_right _ _
  nlinarith

/-- Distinct naturals are at least 1 apart after casting to `ℚ`. -/
theorem one_le_sq_sub {i j : ℕ} (h : i ≠ j) :
    (1 : ℚ) ≤ ((i : ℚ) - (j : ℚ)) ^ 2 := by
  rcases Nat.lt_or_ge i j with hlt | hge
  · have hc : (i : ℚ) + 1 ≤ (j : ℚ) := by exact_mod_cast hlt
    nlinarith
  · have hlt : j < i := by omega
    have hc : (j : ℚ) + 1 ≤ (i : ℚ) := by exact_mod_cast hlt
    nlinarith

/-- A bottom-row centre lies in bottom cell `j`'s disk exactly for its
own cell: the centres sit `2r` apart. -/
theorem hitsB_bottom_center {r : ℚ} (hr : 0 < r) (i j : ℕ) :
    hitsB (bcx r i) (bcy r) (bcx r j) (bcy r) r = true ↔ i = j := by
  unfold hitsB bcx bcy
  rw [decide_eq_true_iff]
  constructor
  · intro hle
    by_contra hne
    have h1 := one_le_sq_sub hne
    nlinarith [mul_pos hr hr]
  · intro heq
    subst heq
    nlinarith [sq_nonneg r]

/-- A top-row centre lies in top cell `j`'s disk exactly for its own
cell. -/
theorem hitsB_top_center {h r : ℚ} (hr : 0 < r) (i j : ℕ) :
    hitsB (tcx r i) (tcy h r) (tcx r j) (tcy h r) r = true ↔ i = j := by
  unfold hitsB tcx tcy
  rw [decide_eq_true_iff]
  constructor
  · intro hle
    by_contra hne
    have h1 := one_le_sq_sub hne
    nlinarith [mul_pos hr hr]
  · intro heq
    subst heq
    nlinarith [sq_nonneg r]

/-- A top-row centre misses every bottom-row disk: the rows are
`h - 3r ≥ 13r/9 > r` apart vertically. -/
theorem hitsB_cross_row {h r : ℚ} (hr : 0 < r) (h40 : 40 * r ≤ 9 * h)
    (i j : ℕ) :
    hitsB (tcx r i) (tcy h r) (bcx r j) (bcy r) r = false := by
  unfold hitsB tcx tcy bcx bcy
  rw [decide_eq_false_iff_not]
  intro hle
  have h4 : 0 < h - 4 * r := by nlinarith
  have h2 : 0 < h - 2 * r := by nlinarith
  nlinarith [sq_nonneg (((8 : ℚ) - (i : ℚ) + 1 / 2) * 2 * r
      - ((j : ℚ) + 1 / 2) * 2 * r), mul_pos h4 h2]

/-- `find?` over `range n` of a predicate true exactly at `i < n`
returns `some i`. -/
theorem find?_range_of_unique {p : ℕ → Bool} {i : ℕ} :
    ∀ n, i < n → (∀ j, j < n → (p j = true ↔ j = i)) →
      (List.range n).find? p = some i := by
  intro n
  induction n with
  | zero =>
      intro hi _
      omega
  | succ n ih =>
      intro hi hp
      rw [List.range_succ, List.find?_append]
      rcases Nat.lt_or_ge i n with h | h
      · rw [ih h (fun j hj => hp j (by omega))]
        rfl
      · have heq : i = n := by omega
        have hnone : (List.range n).find? p = none := by
          rw [List.find?_eq_none]
          intro x hx
          rw [List.mem_range] at hx
          intro hpx
          exact absurd ((hp x (by omega)).mp hpx) (by omega)
        have hself : p n = true := (hp n (by omega)).mpr heq.symm
        rw [hnone]
        simp [hself, heq]

/-- Claim C6: on any positive viewport, feeding the geometric centre of
cell `i` (0–17) back into `_screen_to_pit` returns exactly `i`: each
bottom centre hits only its own bottom disk, and each top centre misses
the whole bottom row (the rows are more than `r` apart) and hits only
its own top disk. -/
theorem c6_hit_round_trip (w h : ℚ) (hw : 0 < w) (hh : 0 < h)
    (i : ℕ) (hi : i < 18) :
    screen_to_pit w h (cellCenterX w h i) (cellCenterY w h i) = some i := by
  have hr : 0 < pitR w h := pitR_pos hw hh
  have h40 : 40 * pitR w h ≤ 9 * h := pitR_le_height
  unfold screen_to_pit cellCenterX cellCenterY
  by_cases hb : i < 9
  · rw [if_pos hb, if_pos hb]
    have hfind : (List.range 9).find?
        (fun j => hitsB (bcx (pitR w h) i) (bcy (pitR w h)) (bcx (pitR w h) j)
          (bcy (pitR w h)) (pitR w h)) = some i :=
      find?_range_of_unique 9 hb
        (fun j _ => (hitsB_bottom_center hr i j).trans eq_comm)
    rw [hfind]
  · rw [if_neg hb, if_neg hb]
    have hi9 : i - 9 < 9 := by omega
    have hnone : (List.range 9).find?
        (fun j => hitsB (tcx (pitR w h) (i - 9)) (tcy h (pitR w h))
          (bcx (pitR w h) j) (bcy (pitR w h)) (pitR w h)) = none := by
      rw [List.find?_eq_none]
      intro x _
      simp [hitsB_cross_row hr h40]
    have hfind2 : (List.range 9).find?
        (fun j => hitsB (tcx (pitR w h) (i - 9)) (tcy h (pitR w h))
          (tcx (pitR w h) j) (tcy h (pitR w h)) (pitR w h)) = some (i - 9) :=
      find?_range_of_unique 9 hi9
        (fun j _ => (hitsB_top_center hr (i - 9) j).trans eq_comm)
    rw [hnone, hfind2]
    show some (9 + (i - 9)) = some i
    congr 1
    omega

/-- Witness for C6 at viewport 180×40 and cell 17. -/
theorem c6_hit_round_trip_witness :
    screen_to_pit 180 40 (cellCenterX 180 40 17) (cellCenterY 180 40 17)
      = some 17 :=
  c6_hit_round_trip 180 40 (by norm_num) (by norm_num) 17 (by norm_num)

/-- Claim C7, counterexample: the cells' disks are NOT pairwise
disjoint.  On the viewport 180×40 the radius is 9, bottom cell 8 and top
cell 9 are both centred at x = 153 only 13 apart vertically, and the
point (153, 20) satisfies the hit condition of BOTH cells — two distinct
cells hit by one query. -/
theorem c7_counterexample :
    (8 : ℕ) ≠ 9 ∧
      hitsB 153 20 (cellCenterX 180 40 8) (cellCenterY 180 40 8)
        (pitR 180 40) = true ∧
      hitsB 153 20 (cellCenterX 180 40 9) (cellCenterY 180 40 9)
        (pitR 180 40) = true := by
  refine ⟨by decide, ?_, ?_⟩ <;>
    norm_num [hitsB, cellCenterX, cellCenterY, bcx, bcy, tcx, tcy, pitR]

/-- Claim C7 (amended): the hit tester returns `none` exactly when no
cell's disk contains the point; when several cells match (adjacent
same-row disks are tangent, and a bottom and a top cell can genuinely
overlap on wide viewports), the scan order — bottom row 0–8, then top
row — picks the first match rather than relying on disjointness. -/
theorem c7_amended_none_iff (w h x y : ℚ) :
    screen_to_pit w h x y = none ↔
      (∀ j, j < 9 →
        hitsB x y (bcx (pitR w h) j) (bcy (pitR w h)) (pitR w h) = false) ∧
      (∀ j, j < 9 →
        hitsB x y (tcx (pitR w h) j) (tcy h (pitR w h)) (pitR w h) = false) := by
  unfold screen_to_pit
  constructor
  · intro hn
    split at hn
    · simp at hn
    · rename_i heq1
      split at hn
      · simp at hn
      · rename_i heq2
        rw [List.find?_eq_none] at heq1 heq2
        constructor
        · intro j hj
          have hj2 := heq1 j (List.mem_range.mpr hj)
          simpa using hj2
        · intro j hj
          have hj2 := heq2 j (List.mem_range.mpr hj)
          simpa using hj2
  · rintro ⟨hb, ht⟩
    have h1 : (List.range 9).find?
        (fun j => hitsB x y (bcx (pitR w h) j) (bcy (pitR w h)) (pitR w h))
          = none := by
      rw [List.find?_eq_none]
      intro j hj
      simp [hb j (List.mem_range.mp hj)]
    have h2 : (List.range 9).find?
        (fun j => hitsB x y (tcx (pitR w h) j) (tcy h (pitR w h)) (pitR w h))
          = none := by
      rw [List.find?_eq_none]
      intro j hj
      simp [ht j (List.mem_range.mp hj)]
    rw [h1, h2]

end Toguz
